import Mathlib

/-!
Verification development for the AskGemini single-file tool
(src/ask_gemini.py).  The Python source is shallowly embedded below:
pure helpers become Lean functions over lists of characters and bytes
(natural numbers), the filesystem walk becomes a recursive function over
an explicit directory-tree datatype, and the effectful pipeline stages
become functions that return explicit traces (which messages were
printed, whether the network call was reached, the exit status).
-/

/-! ## Character classes and Python string helpers -/

/-- Codepoints matched by the Python regex class for whitespace on `str`
patterns, which is also the set stripped by `str.strip()`. -/
def pySpaceB (c : Char) : Bool :=
  [9, 10, 11, 12, 13, 28, 29, 30, 31, 32, 133, 160, 5760,
   8192, 8193, 8194, 8195, 8196, 8197, 8198, 8199, 8200, 8201, 8202,
   8232, 8233, 8239, 8287, 12288].contains c.toNat

/-- Drop leading whitespace, as a maximal munch of the regex class. -/
def dropWs (cs : List Char) : List Char := cs.dropWhile pySpaceB

/-- Embedding of `str.strip()` on the character list of a Python string. -/
def pyStrip (cs : List Char) : List Char :=
  ((cs.dropWhile pySpaceB).reverse.dropWhile pySpaceB).reverse

/-- Match a literal sequence at the head of the input and return the
remainder, or fail. -/
def dropLit : List Char → List Char → Option (List Char)
  | [], h => some h
  | _ :: _, [] => none
  | a :: as, b :: bs => if a == b then dropLit as bs else none

/-- Does the first list occur at the head of the second list? -/
def listStarts : List Char → List Char → Bool
  | [], _ => true
  | _ :: _, [] => false
  | a :: as, b :: bs => a == b && listStarts as bs

/-- Embedding of the Python substring test `needle in haystack`. -/
def pyIn (needle : List Char) : List Char → Bool
  | [] => listStarts needle []
  | c :: rest => listStarts needle (c :: rest) || pyIn needle rest

/-! ## The extraction regex of analyze_codebase

The source searches `raw_text` with the pattern
`parts\s*\{\s*text:\s*"([\s\S]*?)"\s*\}` under `re.DOTALL` and takes the
first captured group.  Because every variable-width piece of the pattern
is either a maximal munch of whitespace followed by a non-whitespace
literal, or the lazy capture `[\s\S]*?` followed by the closing
delimiter, the search is equivalent to the deterministic scan below:
find the leftmost position where the opening part of the pattern
matches, then close the capture at the first position after the opening
quote where a quote is followed by optional whitespace and a closing
brace.  If the opening part matches but no closing delimiter exists, the
lazy capture fails for every later starting position as well, so trying
the next start (as the regex engine does) is faithful. -/

/-- Match the opening part of the pattern, `parts`, whitespace, an
opening brace, whitespace, `text:`, whitespace and the opening quote.
Returns the input remaining after the opening quote. -/
def matchOpen (cs : List Char) : Option (List Char) :=
  match dropLit ['p', 'a', 'r', 't', 's'] cs with
  | none => none
  | some r1 =>
    match dropWs r1 with
    | '\x7b' :: r2 =>
      match dropLit ['t', 'e', 'x', 't', ':'] (dropWs r2) with
      | none => none
      | some r3 =>
        match dropWs r3 with
        | '"' :: r4 => some r4
        | _ => none
    | _ => none

/-- Scan for the first position at which a quote is followed by optional
whitespace and a closing brace; return the characters before it (the
lazy capture of the regex). -/
def findClose : List Char → Option (List Char)
  | [] => none
  | c :: rest =>
    if c = '"' && (match dropWs rest with | '\x7d' :: _ => true | _ => false)
    then some []
    else (findClose rest).map (fun cap => c :: cap)

/-- Embedding of `re.search` for the extraction pattern: try every start
position from the left; at a position where the opening part matches,
the match succeeds if and only if a closing delimiter occurs later. -/
def research : List Char → Option (List Char)
  | [] => none
  | c :: rest =>
    match matchOpen (c :: rest) with
    | some after =>
      match findClose after with
      | some cap => some cap
      | none => research rest
    | none => research rest

/-! ## UTF-8 encoding and the unicode_escape decoder

The source unescapes the answer body with
`bytes(answer_text, "utf-8").decode("unicode_escape")`: the text is
first encoded to UTF-8 bytes and those bytes are then decoded with the
unicode-escape codec, which treats plain bytes as Latin-1 characters and
interprets backslash escapes.  A malformed escape raises
`UnicodeDecodeError`, which the surrounding `try` of the source turns
into a `None` result; the decoder below returns `none` there.  Named
escapes of the form backslash-N are modelled as failures; the upstream
payloads of this pipeline never contain them. -/

/-- UTF-8 encoding of one character, as its list of bytes. -/
def utf8EncodeChar (c : Char) : List Nat :=
  let v := c.toNat
  if v < 128 then [v]
  else if v < 2048 then [192 + v / 64, 128 + v % 64]
  else if v < 65536 then [224 + v / 4096, 128 + v / 64 % 64, 128 + v % 64]
  else [240 + v / 262144, 128 + v / 4096 % 64, 128 + v / 64 % 64, 128 + v % 64]

/-- UTF-8 encoding of a character list, as in `bytes(s, "utf-8")`. -/
def utf8Bytes (cs : List Char) : List Nat := (cs.map utf8EncodeChar).flatten

/-- Value of a hexadecimal digit byte, or failure. -/
def hexVal (b : Nat) : Option Nat :=
  if 48 ≤ b ∧ b ≤ 57 then some (b - 48)
  else if 97 ≤ b ∧ b ≤ 102 then some (b - 87)
  else if 65 ≤ b ∧ b ≤ 70 then some (b - 55)
  else none

/-- Value of two hexadecimal digit bytes, or failure. -/
def hex2Val (b1 b2 : Nat) : Option Nat :=
  match hexVal b1, hexVal b2 with
  | some a1, some a2 => some (a1 * 16 + a2)
  | _, _ => none

/-- Value of four hexadecimal digit bytes, or failure. -/
def hex4Val (b1 b2 b3 b4 : Nat) : Option Nat :=
  match hex2Val b1 b2, hex2Val b3 b4 with
  | some a1, some a2 => some (a1 * 256 + a2)
  | _, _ => none

/-- Value of eight hexadecimal digit bytes, or failure. -/
def hex8Val (b1 b2 b3 b4 b5 b6 b7 b8 : Nat) : Option Nat :=
  match hex4Val b1 b2 b3 b4, hex4Val b5 b6 b7 b8 with
  | some a1, some a2 => some (a1 * 65536 + a2)
  | _, _ => none

/-- Octal escape after the first octal digit: up to two further octal
digits extend the value. -/
def decodeOctal (e : Nat) (cs : List Nat) : List Char × List Nat :=
  match cs with
  | d2 :: ds =>
    if 48 ≤ d2 ∧ d2 ≤ 55 then
      match ds with
      | d3 :: es =>
        if 48 ≤ d3 ∧ d3 ≤ 55 then
          ([Char.ofNat ((e - 48) * 64 + (d2 - 48) * 8 + (d3 - 48))], es)
        else ([Char.ofNat ((e - 48) * 8 + (d2 - 48))], ds)
      | [] => ([Char.ofNat ((e - 48) * 8 + (d2 - 48))], [])
    else ([Char.ofNat (e - 48)], cs)
  | [] => ([Char.ofNat (e - 48)], [])

/-- Hex escape after the byte x: exactly two hex digits. -/
def decodeHex2 (cs : List Nat) : Option (List Char × List Nat) :=
  match cs with
  | h1 :: h2 :: ds =>
    match hex2Val h1 h2 with
    | some w => some ([Char.ofNat w], ds)
    | none => none
  | _ => none

/-- Unicode escape after the byte u: exactly four hex digits. -/
def decodeHex4 (cs : List Nat) : Option (List Char × List Nat) :=
  match cs with
  | h1 :: h2 :: h3 :: h4 :: ds =>
    match hex4Val h1 h2 h3 h4 with
    | some w => some ([Char.ofNat w], ds)
    | none => none
  | _ => none

/-- Unicode escape after the byte U: exactly eight hex digits, rejected
above the largest scalar value. -/
def decodeHex8 (cs : List Nat) : Option (List Char × List Nat) :=
  match cs with
  | h1 :: h2 :: h3 :: h4 :: h5 :: h6 :: h7 :: h8 :: ds =>
    match hex8Val h1 h2 h3 h4 h5 h6 h7 h8 with
    | some w => if w ≤ 1114111 then some ([Char.ofNat w], ds) else none
    | none => none
  | _ => none

/-- One escape sequence after a backslash: the decoded characters and
the remaining bytes.  An empty input is the trailing-backslash error; a
byte 10 is a line continuation, producing nothing; the named
single-character escapes, up to three octal digits, and exactly two,
four or eight hex digits after x, u or U produce one character; an
unknown escape keeps the backslash together with the following byte;
a truncated or malformed escape is `none`. -/
def decodeEscape : List Nat → Option (List Char × List Nat)
  | [] => none
  | e :: cs =>
    if e = 10 then some ([], cs)
    else if e = 92 then some (['\\'], cs)
    else if e = 39 then some ([Char.ofNat 39], cs)
    else if e = 34 then some (['"'], cs)
    else if e = 97 then some ([Char.ofNat 7], cs)
    else if e = 98 then some ([Char.ofNat 8], cs)
    else if e = 102 then some ([Char.ofNat 12], cs)
    else if e = 110 then some (['\n'], cs)
    else if e = 114 then some ([Char.ofNat 13], cs)
    else if e = 116 then some (['\t'], cs)
    else if e = 118 then some ([Char.ofNat 11], cs)
    else if 48 ≤ e ∧ e ≤ 55 then some (decodeOctal e cs)
    else if e = 120 then decodeHex2 cs
    else if e = 117 then decodeHex4 cs
    else if e = 85 then decodeHex8 cs
    else if e = 78 then none
    else some (['\\', Char.ofNat e], cs)

/-- The octal decoder never lengthens the remainder. -/
theorem decodeOctal_len (e : Nat) (cs : List Nat) :
    (decodeOctal e cs).2.length ≤ cs.length := by
  unfold decodeOctal
  repeat' split
  all_goals simp_all
  all_goals omega

/-- The two-digit hex decoder never lengthens the remainder. -/
theorem decodeHex2_len (cs : List Nat) (c2 : List Char) (rest : List Nat)
    (h : decodeHex2 cs = some (c2, rest)) : rest.length ≤ cs.length := by
  unfold decodeHex2 at h
  repeat' split at h
  all_goals (try cases h)
  all_goals simp_all
  all_goals omega

/-- The four-digit hex decoder never lengthens the remainder. -/
theorem decodeHex4_len (cs : List Nat) (c2 : List Char) (rest : List Nat)
    (h : decodeHex4 cs = some (c2, rest)) : rest.length ≤ cs.length := by
  unfold decodeHex4 at h
  repeat' split at h
  all_goals (try cases h)
  all_goals simp_all
  all_goals omega

/-- The eight-digit hex decoder never lengthens the remainder. -/
theorem decodeHex8_len (cs : List Nat) (c2 : List Char) (rest : List Nat)
    (h : decodeHex8 cs = some (c2, rest)) : rest.length ≤ cs.length := by
  unfold decodeHex8 at h
  repeat' split at h
  all_goals (try cases h)
  all_goals simp_all
  all_goals omega

/-- Decoding one escape consumes at least the byte after the backslash. -/
theorem decodeEscape_len :
    ∀ (bs : List Nat) (cs : List Char) (rest : List Nat),
      decodeEscape bs = some (cs, rest) → rest.length ≤ bs.length := by
  intro bs cs rest h
  cases bs with
  | nil => exact absurd h (by simp [decodeEscape])
  | cons e cs0 =>
    simp only [decodeEscape] at h
    by_cases c1 : e = 10
    · rw [if_pos c1] at h
      cases h
      simp only [List.length_cons]
      omega
    rw [if_neg c1] at h
    by_cases c2 : e = 92
    · rw [if_pos c2] at h
      cases h
      simp only [List.length_cons]
      omega
    rw [if_neg c2] at h
    by_cases c3 : e = 39
    · rw [if_pos c3] at h
      cases h
      simp only [List.length_cons]
      omega
    rw [if_neg c3] at h
    by_cases c4 : e = 34
    · rw [if_pos c4] at h
      cases h
      simp only [List.length_cons]
      omega
    rw [if_neg c4] at h
    by_cases c5 : e = 97
    · rw [if_pos c5] at h
      cases h
      simp only [List.length_cons]
      omega
    rw [if_neg c5] at h
    by_cases c6 : e = 98
    · rw [if_pos c6] at h
      cases h
      simp only [List.length_cons]
      omega
    rw [if_neg c6] at h
    by_cases c7 : e = 102
    · rw [if_pos c7] at h
      cases h
      simp only [List.length_cons]
      omega
    rw [if_neg c7] at h
    by_cases c8 : e = 110
    · rw [if_pos c8] at h
      cases h
      simp only [List.length_cons]
      omega
    rw [if_neg c8] at h
    by_cases c9 : e = 114
    · rw [if_pos c9] at h
      cases h
      simp only [List.length_cons]
      omega
    rw [if_neg c9] at h
    by_cases c10 : e = 116
    · rw [if_pos c10] at h
      cases h
      simp only [List.length_cons]
      omega
    rw [if_neg c10] at h
    by_cases c11 : e = 118
    · rw [if_pos c11] at h
      cases h
      simp only [List.length_cons]
      omega
    rw [if_neg c11] at h
    by_cases c12 : 48 ≤ e ∧ e ≤ 55
    · rw [if_pos c12] at h
      injection h with h1
      have h2 : (decodeOctal e cs0).2 = rest := congrArg Prod.snd h1
      have h3 := decodeOctal_len e cs0
      rw [h2] at h3
      simp only [List.length_cons]
      omega
    rw [if_neg c12] at h
    by_cases c13 : e = 120
    · rw [if_pos c13] at h
      have h3 := decodeHex2_len _ _ _ h
      simp only [List.length_cons]
      omega
    rw [if_neg c13] at h
    by_cases c14 : e = 117
    · rw [if_pos c14] at h
      have h3 := decodeHex4_len _ _ _ h
      simp only [List.length_cons]
      omega
    rw [if_neg c14] at h
    by_cases c15 : e = 85
    · rw [if_pos c15] at h
      have h3 := decodeHex8_len _ _ _ h
      simp only [List.length_cons]
      omega
    rw [if_neg c15] at h
    by_cases c16 : e = 78
    · rw [if_pos c16] at h
      exact Option.noConfusion h
    rw [if_neg c16] at h
    cases h
    simp only [List.length_cons]
    omega

/-- Recursion worker for the decoder.  The fuel argument only serves
termination; it is enough whenever it bounds the input length, because
every step consumes at least one byte. -/
def unescapeAux : Nat → List Nat → Option (List Char)
  | _, [] => some []
  | 0, _ :: _ => none
  | fuel + 1, b :: bs =>
    if b = 92 then
      match decodeEscape bs with
      | some (cs2, rest) => (unescapeAux fuel rest).map (fun t => cs2 ++ t)
      | none => none
    else (unescapeAux fuel bs).map (fun t => Char.ofNat b :: t)

/-- Embedding of `bytes.decode("unicode_escape")`.  Plain bytes are read
as Latin-1 characters; a backslash starts an escape handled by
`decodeEscape`.  A malformed escape is a decoding error; the source
raises `UnicodeDecodeError` there. -/
def unescapeBytes (bs : List Nat) : Option (List Char) :=
  unescapeAux bs.length bs

/-- The fuel is irrelevant as long as it bounds the input length. -/
theorem unescapeAux_fuel :
    ∀ (f1 f2 : Nat) (bs : List Nat), bs.length ≤ f1 → bs.length ≤ f2 →
      unescapeAux f1 bs = unescapeAux f2 bs := by
  intro f1
  induction f1 with
  | zero =>
    intro f2 bs h1 h2
    cases bs with
    | nil => cases f2 <;> rfl
    | cons b bs0 => exact absurd h1 (by simp)
  | succ g1 ih =>
    intro f2 bs h1 h2
    cases bs with
    | nil => cases f2 <;> rfl
    | cons b bs0 =>
      cases f2 with
      | zero => exact absurd h2 (by simp)
      | succ g2 =>
        simp only [unescapeAux]
        by_cases hb : b = 92
        · rw [if_pos hb, if_pos hb]
          cases hd : decodeEscape bs0 with
          | none => rfl
          | some p =>
            rcases p with ⟨cs2, rest⟩
            have hr : rest.length ≤ bs0.length := decodeEscape_len _ _ _ hd
            have heq := ih g2 rest (by simp at h1; omega) (by simp at h2; omega)
            simp [heq]
        · rw [if_neg hb, if_neg hb]
          rw [ih g2 bs0 (by simp at h1; omega) (by simp at h2; omega)]

/-! ## The response extractor -/

/-- Answer body selected by the source: the first captured group when
the pattern matches, otherwise the whole working text. -/
def extractBody (raw : List Char) : List Char :=
  match research raw with
  | some g => g
  | none => raw

/-- Embedding of the extraction tail of `analyze_codebase`: select the
answer body, unescape it and strip surrounding whitespace.  A decoding
error becomes `none`; the source raises there and returns `None`. -/
def extractAnswer (raw_text : String) : Option String :=
  match unescapeBytes (utf8Bytes (extractBody raw_text.data)) with
  | some chars => some (String.mk (pyStrip chars))
  | none => none

/-- Structural wrapper around an escaped payload, exactly as in the
specification: the word `parts`, a space, an opening brace, a space,
`text:`, a space, the quoted content, a space and a closing brace. -/
def wrapParts (content : String) : String :=
  "parts \x7b text: \"" ++ content ++ "\" \x7d"

/-! ## The upstream escape encoding -/

/-- Lowercase hexadecimal digit character for a value below sixteen. -/
def hexDigit (n : Nat) : Char :=
  if n < 10 then Char.ofNat (48 + n) else Char.ofNat (87 + n)

/-- Eight-digit hexadecimal rendering of a codepoint. -/
def hex8 (v : Nat) : List Char :=
  [hexDigit (v / 268435456 % 16), hexDigit (v / 16777216 % 16),
   hexDigit (v / 1048576 % 16), hexDigit (v / 65536 % 16),
   hexDigit (v / 4096 % 16), hexDigit (v / 256 % 16),
   hexDigit (v / 16 % 16), hexDigit (v % 16)]

/-- Modelled from the spec: the upstream serialization escape-encodes
the answer into backslash-escape notation (for example backslash-n,
backslash-t, unicode escapes); the encoder itself lives in the remote
service and is not part of the repository.  Backslash, quote, newline,
tab and carriage return become two-character escapes, printable ASCII is
kept literally, and every other character becomes an eight-digit
uppercase-U unicode escape. -/
def escapeChar (c : Char) : List Char :=
  if c = '\\' then ['\\', '\\']
  else if c = '"' then ['\\', '"']
  else if c = '\n' then ['\\', 'n']
  else if c = '\t' then ['\\', 't']
  else if c = '\r' then ['\\', 'r']
  else if 32 ≤ c.toNat ∧ c.toNat ≤ 126 then [c]
  else '\\' :: 'U' :: (hex8 c.toNat)

/-- Escape encoding of a whole string. -/
def escapeStr (s : String) : String := String.mk (s.data.map escapeChar).flatten

/-! ## The directory tree and read_codebase

A directory tree is embedded explicitly.  A file carries its name and
either its decoded text content or `none` for a file whose bytes are not
valid UTF-8 (the source prints a warning and skips such a file).  The
walk below is the embedding of `os.walk` with its default top-down
order: it yields the current directory first and then the subtrees of
its directory children in order, and nothing for a path that is not a
directory.  The path of the starting directory is the string handed to
the walk, and a child path joins with a slash, as `os.path.join` does.
The body of the loop in `read_codebase` never prunes the directory
list, so the walk enumerates every directory of the tree and the
exclusion test is applied to each yielded root separately. -/

inductive FSTree where
  | file (name : String) (content : Option String)
  | dir (name : String) (children : List FSTree)

/-- Name of a tree node. -/
def nodeName : FSTree → String
  | .file n _ => n
  | .dir n _ => n

/-- Path of a child node, as joined by `os.path.join`. -/
def childPath (p : String) (t : FSTree) : String := p ++ "/" ++ nodeName t

mutual

/-- All pairs of a directory path and its entries yielded by `os.walk`,
top down. -/
def walkFrom (p : String) : FSTree → List (String × List FSTree)
  | .file _ _ => []
  | .dir _ ch => (p, ch) :: walkList p ch

/-- Walk every child subtree in order. -/
def walkList (p : String) : List FSTree → List (String × List FSTree)
  | [] => []
  | t :: ts => walkFrom (childPath p t) t ++ walkList p ts

end

/-- File entries of a directory, in order: the `files` component of a
step of `os.walk`. -/
def filesOf (ch : List FSTree) : List (String × Option String) :=
  ch.filterMap (fun t => match t with
    | .file n c => some (n, c)
    | .dir _ _ => none)

/-- Embedding of the exclusion test of the source,
`any(excluded_path in root for excluded_path in excluded_paths)`: a
plain substring test of each entry against the yielded root path. -/
def isExcluded (excluded_paths : List String) (root : String) : Bool :=
  excluded_paths.any (fun e => pyIn e.data root.data)

/-- Written from the words of the spec, for comparison with
`isExcluded`: a directory is excluded if some exclusion entry equals it
or is one of its ancestors. -/
def specExcluded (excluded_paths : List String) (p : String) : Bool :=
  excluded_paths.any (fun e => e == p || listStarts (e ++ "/").data p.data)

/-- Embedding of `str.endswith` for a single suffix. -/
def pyEndsWith (s suffix : String) : Bool :=
  listStarts suffix.data.reverse s.data.reverse

/-- Extension filter of the source:
`file.endswith((".php", ".py", ".js", ".java", ".cpp", ".h"))`. -/
def extOk (name : String) : Bool :=
  pyEndsWith name ".php" || pyEndsWith name ".py" || pyEndsWith name ".js" ||
  pyEndsWith name ".java" || pyEndsWith name ".cpp" || pyEndsWith name ".h"

/-- Embedding of a Python dict update `d[k] = v` on an
insertion-ordered association list: an existing key keeps its position
and receives the new value, a new key is appended. -/
def dictInsert (d : List (String × String)) (k v : String) :
    List (String × String) :=
  if d.any (fun kv => kv.1 == k) then
    d.map (fun kv => if kv.1 == k then (k, v) else kv)
  else d ++ [(k, v)]

/-- Process the files of one directory: keep files with a recognized
extension, store readable content under the file basename, skip a file
with a decoding failure. -/
def processFiles (d : List (String × String)) :
    List (String × Option String) → List (String × String)
  | [] => d
  | (n, c) :: rest =>
    if extOk n then
      match c with
      | some txt => processFiles (dictInsert d n txt) rest
      | none => processFiles d rest
    else processFiles d rest

/-- Fold of the loop body of `read_codebase` over the walk: an excluded
root contributes nothing, every other root contributes its files. -/
def readFromWalk (excluded_paths : List String) :
    List (String × List FSTree) → List (String × String) → List (String × String)
  | [], d => d
  | (root, ch) :: ws, d =>
    readFromWalk excluded_paths ws
      (if isExcluded excluded_paths root then d else processFiles d (filesOf ch))

/-- Embedding of `read_codebase`: walk the tree rooted at the given
path and collect file contents keyed by basename. -/
def read_codebase (codebase_path : String) (excluded_paths : List String)
    (t : FSTree) : List (String × String) :=
  readFromWalk excluded_paths (walkFrom codebase_path t) []

/-! ## Prompt formatting -/

/-- Embedding of `determine_language`. -/
def determine_language (filename : String) : String :=
  if pyEndsWith filename ".php" then "php"
  else if pyEndsWith filename ".py" then "python"
  else if pyEndsWith filename ".js" then "javascript"
  else if pyEndsWith filename ".cpp" then "cpp"
  else if pyEndsWith filename ".java" then "java"
  else if pyEndsWith filename ".h" then "cpp"
  else ""

/-- Embedding of `format_code_for_api`: each stored file becomes a
fenced code block tagged with its language, followed by a blank line. -/
def format_code_for_api (code_files : List (String × String)) : String :=
  code_files.foldl
    (fun acc kv =>
      acc ++ "```" ++ determine_language kv.1 ++ "\n" ++ kv.2 ++ "\n```\n\n")
    ""

/-! ## The gateway stage and analyze_codebase

The network call itself is external; its possible outcomes are embedded
as a datatype: the call raises (with or without a deadline message), or
returns a response whose candidate list is embedded directly.  The
content of the first candidate is embedded by the shape the type ladder
of the source distinguishes: the Python `None`, a plain string, an
object with a `parts.text` attribute, a dict whose parts entry is a
dict with an optional text entry, a dict whose parts entry is some
other value (stringified), or any other payload (stringified). -/

inductive RawContent where
  | pyNone
  | str (s : String)
  | partsText (s : String)
  | dictPartsDict (text : Option String)
  | dictPartsOther (partsStr : String)
  | other (strForm : String)
deriving DecidableEq

inductive GatewayOutcome where
  | raiseDeadline
  | raiseOther (msg : String)
  | respond (candidates : List RawContent)
deriving DecidableEq

/-- Raw text selected by the type ladder of the source for a non-None
content value. -/
def normalizeContent : RawContent → String
  | .pyNone => ""
  | .str s => s
  | .partsText s => s
  | .dictPartsDict t => t.getD ""
  | .dictPartsOther p => p
  | .other s => s

/-- Observable trace of one `analyze_codebase` call: whether
`genai.configure` was reached, the prompt handed to
`generate_content` when the call was made, the returned value, and the
diagnostics printed to the error stream. -/
structure AnalyzeTrace where
  configured : Bool
  sentPrompt : Option String
  result : Option String
  errors : List String
deriving DecidableEq

/-- Python truthiness of an optional string: false for `None` and for
the empty string. -/
def pyTruthy (o : Option String) : Bool :=
  match o with
  | some s => s != ""
  | none => false

/-- Embedding of `analyze_codebase`.  The api key is the value of
`GEMINI_API_KEY` in the environment; a missing or empty key returns
before the model is configured and before any call.  Otherwise the
prompt is built from the scanned tree and the question and handed to
the gateway, whose outcome drives the rest of the function. -/
def analyze_codebase (apiKey : Option String) (codebase_path : String)
    (excluded_paths : List String) (t : FSTree) (question : String)
    (gw : GatewayOutcome) : AnalyzeTrace :=
  if pyTruthy apiKey = false then
    ⟨false, none, none, ["Error: GEMINI_API_KEY not found in environment."]⟩
  else
    let prompt :=
      format_code_for_api (read_codebase codebase_path excluded_paths t)
        ++ "\n\n" ++ question
    match gw with
    | .raiseDeadline =>
      ⟨true, some prompt, none, ["Error: Gemini request timed out."]⟩
    | .raiseOther m =>
      ⟨true, some prompt, none, ["An error occurred: " ++ m]⟩
    | .respond [] =>
      ⟨true, some prompt, none, ["Error: No candidates returned in the response."]⟩
    | .respond (c :: _) =>
      match c with
      | .pyNone =>
        ⟨true, some prompt, none, ["Error: No text content found in the response."]⟩
      | c' =>
        match extractAnswer (normalizeContent c') with
        | some a => ⟨true, some prompt, some a, []⟩
        | none =>
          ⟨true, some prompt, none,
           ["An error occurred: malformed escape in response text."]⟩

/-! ## Interactive input and main -/

/-- Embedding of `prompt_for_multiline_input` as a trace over the two
operations that can raise: launching the editor subprocess and reading
the temporary file back.  The first component is the returned text or a
propagated exception; the second component records whether the
temporary file was removed when the function ended.  The source calls
`os.remove` only on the straight-line path after the read, with no
enclosing try block. -/
def prompt_for_multiline_input (editorRaises readRaises : Bool)
    (content : String) : Except Unit String × Bool :=
  if editorRaises then (Except.error (), false)
  else if readRaises then (Except.error (), false)
  else (Except.ok content, true)

/-- Question-selection stage of `main`: `none` is a usage error that
exits with status one; `some q` continues into the analysis with q.
The conditions mirror the truthiness tests of the source: a question
argument that is the empty string is falsy and falls through. -/
def main_question (argQ : Option String) (argE : Bool)
    (editorContent : String) : Option String :=
  if pyTruthy argQ && argE then none
  else if pyTruthy argQ then some (argQ.getD "")
  else if argE then some editorContent
  else none

/-- Embedding of `main` for runs in which the editor does not raise:
the exit status of the process and the answer printed to standard
output, if any.  After the analysis the source only branches on the
truthiness of the result and never calls `sys.exit`, so both the
failure path and the empty-answer path fall off the end of `main` with
exit status zero. -/
def main_run (argQ : Option String) (argE : Bool) (editorContent : String)
    (apiKey : Option String) (codebase_path : String)
    (excluded_paths : List String) (t : FSTree) (gw : GatewayOutcome) :
    Nat × Option String :=
  match main_question argQ argE editorContent with
  | none => (1, none)
  | some q =>
    match (analyze_codebase apiKey codebase_path excluded_paths t q gw).result with
    | some a => if a != "" then (0, some a) else (0, none)
    | none => (0, none)

/-! ## Substring lemmas -/

theorem listStarts_iff (n : List Char) : ∀ h : List Char,
    listStarts n h = true ↔ ∃ r, h = n ++ r := by
  induction n with
  | nil => intro h; simp [listStarts]
  | cons a as ih =>
    intro h
    cases h with
    | nil => simp [listStarts]
    | cons b bs =>
      simp only [listStarts, Bool.and_eq_true, beq_iff_eq, ih, List.cons_append,
        List.cons_eq_cons]
      constructor
      · rintro ⟨hab, r, hr⟩
        exact ⟨r, hab.symm, hr⟩
      · rintro ⟨r, hba, hr⟩
        exact ⟨hba.symm, r, hr⟩

theorem pyIn_iff (n : List Char) : ∀ h : List Char,
    pyIn n h = true ↔ ∃ l r, h = l ++ n ++ r := by
  intro h
  induction h with
  | nil =>
    simp only [pyIn, listStarts_iff]
    constructor
    · rintro ⟨r, hr⟩
      exact ⟨[], r, by simpa using hr⟩
    · rintro ⟨l, r, hr⟩
      rcases List.append_eq_nil.1 hr.symm with ⟨h1, h2⟩
      rcases List.append_eq_nil.1 h1 with ⟨h3, h4⟩
      exact ⟨[], by simp [h4]⟩
  | cons c rest ih =>
    simp only [pyIn, Bool.or_eq_true, listStarts_iff, ih]
    constructor
    · rintro (⟨r, hr⟩ | ⟨l, r, hr⟩)
      · exact ⟨[], r, by simpa using hr⟩
      · exact ⟨c :: l, r, by simp [hr]⟩
    · rintro ⟨l, r, hr⟩
      cases l with
      | nil => exact Or.inl ⟨r, by simpa using hr⟩
      | cons x xs =>
        rcases List.cons_eq_cons.1 (by simpa using hr) with ⟨hcx, hrest⟩
        exact Or.inr ⟨xs, r, by rw [List.append_assoc]; exact hrest⟩

/-! ## C4: the exclusion test -/

/-- C4 counterexample: with the exclusion entry b, the directory r/abc
is excluded by the source (the entry occurs as a partial substring of
the path) even though the entry neither equals the path nor is one of
its ancestors, and the file below it is dropped from the scan. -/
theorem exclusion_substring_cex :
    isExcluded ["b"] "r/abc" = true ∧ specExcluded ["b"] "r/abc" = false ∧
    read_codebase "r" ["b"]
      (.dir "r" [.dir "abc" [.file "x.py" (some "print(1)")]]) = [] := by
  decide

/-- C4 amended: the exclusion test of the source is a plain substring
test on the yielded root path, with no resolution to absolute or
normalized paths: a directory is excluded exactly when some exclusion
entry occurs anywhere inside its path string. -/
theorem exclusion_iff_substring (excl : List String) (root : String) :
    isExcluded excl root = true ↔
      ∃ e ∈ excl, ∃ l r, root.data = l ++ e.data ++ r := by
  simp [isExcluded, List.any_eq_true, pyIn_iff]

/-! ## C3: excluded subtrees and the walk -/

/-- Membership in a dict after an update. -/
theorem dictInsert_mem {d : List (String × String)} {k v k' v' : String}
    (h : (k', v') ∈ dictInsert d k v) :
    (k', v') ∈ d ∨ (k' = k ∧ v' = v) := by
  unfold dictInsert at h
  split at h
  · rcases List.mem_map.1 h with ⟨kv, hkv, hf⟩
    by_cases hb : kv.1 == k
    · simp only [hb, if_true] at hf
      rcases Prod.mk.injEq .. ▸ hf with ⟨h1, h2⟩
      exact Or.inr ⟨h1.symm, h2.symm⟩
    · simp only [hb, if_false] at hf
      exact Or.inl (hf ▸ hkv)
  · rcases List.mem_append.1 h with h1 | h1
    · exact Or.inl h1
    · rcases List.mem_singleton.1 h1 with h2
      exact Or.inr ⟨congrArg Prod.fst h2, congrArg Prod.snd h2⟩

/-- Origin of an entry after processing the files of one directory. -/
theorem processFiles_mem :
    ∀ (fs : List (String × Option String)) (d : List (String × String))
      (k v : String), (k, v) ∈ processFiles d fs →
      (k, v) ∈ d ∨ ((k, some v) ∈ fs ∧ extOk k = true) := by
  intro fs
  induction fs with
  | nil => intro d k v h; exact Or.inl h
  | cons f rest ih =>
    intro d k v h
    rcases f with ⟨n, c⟩
    by_cases he : extOk n = true
    · cases c with
      | some txt =>
        simp only [processFiles, he, if_true] at h
        rcases ih _ k v h with h1 | h1
        · rcases dictInsert_mem h1 with h2 | h2
          · exact Or.inl h2
          · exact Or.inr ⟨by rw [h2.1, h2.2]; exact List.mem_cons_self _ _,
              by rw [h2.1]; exact he⟩
        · exact Or.inr ⟨List.mem_cons_of_mem _ h1.1, h1.2⟩
      | none =>
        simp only [processFiles, he, if_true] at h
        rcases ih _ k v h with h1 | h1
        · exact Or.inl h1
        · exact Or.inr ⟨List.mem_cons_of_mem _ h1.1, h1.2⟩
    · simp only [processFiles, he, if_false] at h
      rcases ih _ k v h with h1 | h1
      · exact Or.inl h1
      · exact Or.inr ⟨List.mem_cons_of_mem _ h1.1, h1.2⟩

/-- Origin of an entry of the fold over a walk: it was already present,
or it comes from a file with a recognized extension in a directory the
exclusion test lets through. -/
theorem readFromWalk_mem (excl : List String) :
    ∀ (ws : List (String × List FSTree)) (d : List (String × String))
      (k v : String), (k, v) ∈ readFromWalk excl ws d →
      (k, v) ∈ d ∨ ∃ root ch, (root, ch) ∈ ws ∧ isExcluded excl root = false ∧
        (k, some v) ∈ filesOf ch ∧ extOk k = true := by
  intro ws
  induction ws with
  | nil => intro d k v h; exact Or.inl h
  | cons w rest ih =>
    intro d k v h
    rcases w with ⟨root, ch⟩
    simp only [readFromWalk] at h
    rcases ih _ k v h with h1 | ⟨r2, c2, hm, hex, hf, he⟩
    · by_cases hx : isExcluded excl root = true
      · rw [if_pos hx] at h1
        exact Or.inl h1
      · rw [if_neg hx] at h1
        rcases processFiles_mem _ _ _ _ h1 with h2 | h2
        · exact Or.inl h2
        · exact Or.inr ⟨root, ch, List.mem_cons_self _ _,
            Bool.not_eq_true _ ▸ hx, h2.1, h2.2⟩
    · exact Or.inr ⟨r2, c2, List.mem_cons_of_mem _ hm, hex, hf, he⟩

/-- C3 counterexample: the walk of the source is not pruned at an
excluded directory.  With exclusion entry ex, the directory r/ex is
excluded, yet its subdirectory r/ex/sub is still enumerated (and
tested) by the traversal that `read_codebase` iterates over; only the
per-directory file processing is skipped, which is why the scan result
is nevertheless empty. -/
theorem excluded_subtree_visited_cex :
    isExcluded ["ex"] "r/ex" = true ∧
    "r/ex/sub" ∈ (walkFrom "r"
      (.dir "r" [.dir "ex" [.dir "sub" [.file "a.py" (some "x")]]])).map Prod.fst ∧
    read_codebase "r" ["ex"]
      (.dir "r" [.dir "ex" [.dir "sub" [.file "a.py" (some "x")]]]) = [] := by
  decide

/-- C3 amended: no file under a directory that the exclusion test
matches ever appears in the scan result — every entry of the result
originates from a directory of the walk that the exclusion test lets
through (and the substring test matches every descendant of a matched
directory, so a let-through directory lies under no excluded one) —
but the excluded subtree is still enumerated by the walk; only its
per-directory processing is skipped. -/
theorem scan_entry_origin (p : String) (excl : List String) (t : FSTree)
    (k v : String) (h : (k, v) ∈ read_codebase p excl t) :
    ∃ root ch, (root, ch) ∈ walkFrom p t ∧ isExcluded excl root = false ∧
      (k, some v) ∈ filesOf ch ∧ extOk k = true := by
  rcases readFromWalk_mem excl (walkFrom p t) [] k v h with h1 | h1
  · cases h1
  · exact h1

/-- C3 witness: the origin theorem applied to a concrete one-file tree. -/
theorem scan_entry_origin_witness :
    (("a.py", "print(1)") ∈ read_codebase "r" ["zzz"]
      (.dir "r" [.file "a.py" (some "print(1)")])) ∧
    ∃ root ch, (root, ch) ∈ walkFrom "r"
        (.dir "r" [.file "a.py" (some "print(1)")]) ∧
      isExcluded ["zzz"] root = false ∧
      ("a.py", some "print(1)") ∈ filesOf ch ∧ extOk "a.py" = true :=
  ⟨by decide, scan_entry_origin "r" ["zzz"] _ "a.py" "print(1)" (by decide)⟩

/-! ## C10: basename keying -/

/-- Updating a dict never duplicates a key. -/
theorem dictInsert_nodup {d : List (String × String)} {k v : String}
    (h : (d.map Prod.fst).Nodup) :
    ((dictInsert d k v).map Prod.fst).Nodup := by
  unfold dictInsert
  split
  · have heq : (d.map fun kv => if kv.1 == k then (k, v) else kv).map Prod.fst
        = d.map Prod.fst := by
      rw [List.map_map]
      refine List.map_congr_left ?_
      intro kv _
      by_cases hb : kv.1 == k
      · simp only [Function.comp_apply, hb, if_true]
        exact (eq_of_beq hb).symm
      · have hne : kv.1 ≠ k := by simpa using hb
        simp [Function.comp_apply, hne]
    rw [heq]; exact h
  · rename_i hany
    rw [List.map_append, List.nodup_append]
    refine ⟨h, by simp, ?_⟩
    intro x hx hx1
    have hxk : x = k := by simpa using hx1
    rcases List.mem_map.1 hx with ⟨kv, hkv, hfst⟩
    exact hany (List.any_eq_true.2 ⟨kv, hkv, beq_iff_eq.2 (hfst.trans hxk)⟩)

/-- Processing the files of a directory never duplicates a key. -/
theorem processFiles_nodup :
    ∀ (fs : List (String × Option String)) (d : List (String × String)),
      (d.map Prod.fst).Nodup → ((processFiles d fs).map Prod.fst).Nodup := by
  intro fs
  induction fs with
  | nil => intro d h; exact h
  | cons f rest ih =>
    intro d h
    rcases f with ⟨n, c⟩
    by_cases he : extOk n = true
    · cases c with
      | some txt =>
        simp only [processFiles, he, if_true]
        exact ih _ (dictInsert_nodup h)
      | none =>
        simp only [processFiles, he, if_true]
        exact ih _ h
    · simp only [processFiles, he, if_false]
      exact ih _ h

/-- Folding the walk never duplicates a key. -/
theorem readFromWalk_nodup (excl : List String) :
    ∀ (ws : List (String × List FSTree)) (d : List (String × String)),
      (d.map Prod.fst).Nodup → ((readFromWalk excl ws d).map Prod.fst).Nodup := by
  intro ws
  induction ws with
  | nil => intro d h; exact h
  | cons w rest ih =>
    intro d h
    rcases w with ⟨root, ch⟩
    simp only [readFromWalk]
    by_cases hx : isExcluded excl root = true
    · rw [if_pos hx]; exact ih _ h
    · rw [if_neg hx]; exact ih _ (processFiles_nodup _ _ h)

/-- C10: the scan result is keyed by file basename alone: its keys are
always free of duplicates, and for a tree with two same-named files in
different directories the content read later in traversal order
overwrites the earlier one, whose text therefore never reaches the
formatted prompt. -/
theorem basename_keying_overwrite :
    (∀ (p : String) (excl : List String) (t : FSTree),
      ((read_codebase p excl t).map Prod.fst).Nodup) ∧
    read_codebase "r" []
      (.dir "r" [.dir "a" [.file "x.py" (some "print(1)")],
                 .dir "b" [.file "x.py" (some "print(2)")]])
      = [("x.py", "print(2)")] ∧
    pyIn "print(1)".data (format_code_for_api (read_codebase "r" []
      (.dir "r" [.dir "a" [.file "x.py" (some "print(1)")],
                 .dir "b" [.file "x.py" (some "print(2)")]]))).data = false :=
  ⟨fun p excl t => readFromWalk_nodup excl (walkFrom p t) [] (by simp),
   by decide, by decide⟩

/-! ## C5: the empty scan -/

/-- C5 counterexample: scanning an empty directory yields an empty
collection, yet `analyze_codebase` raises no fatal condition: it prints
no diagnostic at all and submits the prompt consisting of the empty
context, two newlines and the question to the model. -/
theorem empty_scan_prompt_sent_cex :
    read_codebase "r" [] (FSTree.dir "r" []) = [] ∧
    (analyze_codebase (some "k") "r" [] (FSTree.dir "r" []) "Q"
      (.respond [.str "ok"])).sentPrompt = some "\n\nQ" ∧
    (analyze_codebase (some "k") "r" [] (FSTree.dir "r" []) "Q"
      (.respond [.str "ok"])).errors = [] := by
  decide

/-- C5 amended: whenever the scan yields an empty collection and the
api key is set, no fatal no-files-found outcome occurs: the context is
empty and the prompt made of two newlines followed by the question is
submitted to the model. -/
theorem empty_scan_sends_prompt (key : Option String) (p : String)
    (excl : List String) (t : FSTree) (q : String) (gw : GatewayOutcome)
    (hkey : pyTruthy key = true)
    (hempty : read_codebase p excl t = []) :
    (analyze_codebase key p excl t q gw).sentPrompt = some ("\n\n" ++ q) := by
  unfold analyze_codebase
  rw [hkey]
  simp only [Bool.true_eq_false, if_false, hempty]
  have hfmt : format_code_for_api [] ++ "\n\n" ++ q = "\n\n" ++ q := rfl
  rw [hfmt]
  cases gw with
  | raiseDeadline => rfl
  | raiseOther m => rfl
  | respond cands =>
    cases cands with
    | nil => rfl
    | cons c rest =>
      cases c <;> simp only [analyze_codebase] <;>
        (cases hE : extractAnswer _ <;> simp [hE])

/-- C5 witness: the amended theorem applied to an empty directory. -/
theorem empty_scan_sends_prompt_witness :
    pyTruthy (some "k") = true ∧
    read_codebase "rt" [] (FSTree.dir "rt" []) = [] ∧
    (analyze_codebase (some "k") "rt" [] (FSTree.dir "rt" []) "why"
      (.respond [.str "fine"])).sentPrompt = some ("\n\n" ++ "why") :=
  ⟨by decide, by decide,
   empty_scan_sends_prompt (some "k") "rt" [] (FSTree.dir "rt" []) "why"
     (.respond [.str "fine"]) (by decide) (by decide)⟩

/-! ## C6: exit status -/

/-- C6 counterexample: with the api key missing, the run is fatal (the
configuration diagnostic is printed and no answer is produced), yet the
process falls off the end of main and exits with status zero. -/
theorem fatal_exit_zero_cex :
    (analyze_codebase none "r" [] (FSTree.dir "r" []) "hi"
      (.respond [.str "ok"])).errors
      = ["Error: GEMINI_API_KEY not found in environment."] ∧
    main_run (some "hi") false "" none "r" [] (FSTree.dir "r" [])
      (.respond [.str "ok"]) = (0, none) := by
  decide

/-- C6 amended: only the two usage errors of the argument stage (both
question sources given, or neither) exit with a non-zero status; once a
question is selected the process always exits zero, regardless of the
outcome of the analysis — every analysis failure prints its diagnostic
and still exits zero, and even a successful run whose extracted answer
is the empty string prints the failure diagnostic and exits zero. -/
theorem exit_code_characterization (argQ : Option String) (argE : Bool)
    (ec : String) (key : Option String) (p : String) (excl : List String)
    (t : FSTree) (gw : GatewayOutcome) :
    (main_run argQ argE ec key p excl t gw).1 =
      if (pyTruthy argQ && argE) || (!pyTruthy argQ && !argE) then 1 else 0 := by
  unfold main_run main_question
  cases hq : pyTruthy argQ <;> cases argE <;> simp <;>
    (cases (analyze_codebase key p excl t _ gw).result with
     | none => rfl
     | some a => by_cases hae : a = "" <;> simp [hae])

/-! ## C7: the empty question -/

/-- C7 counterexample: a question consisting of one space is accepted
by the question stage although it trims to the empty string, and the
analysis stage then submits the prompt to the model; no fatal
no-query-provided condition occurs. -/
theorem whitespace_question_sent_cex :
    main_question (some " ") false "" = some " " ∧
    pyStrip " ".data = [] ∧
    (analyze_codebase (some "k") "r" [] (FSTree.dir "r"
      [FSTree.file "a.py" (some "x")]) " "
      (.respond [.str "ok"])).sentPrompt.isSome = true := by
  decide

/-- C7 amended: the question stage rejects only by truthiness, with no
trimming anywhere: a direct question that is exactly the empty string
falls through to the no-question usage error, but a whitespace-only
direct question, and any editor result (even empty), are accepted and
the prompt is sent to the model. -/
theorem usage_error_characterization (argQ : Option String) (argE : Bool)
    (ec : String) :
    main_question argQ argE ec = none ↔
      ((pyTruthy argQ && argE) || (!pyTruthy argQ && !argE)) = true := by
  unfold main_question
  cases pyTruthy argQ <;> cases argE <;> simp

/-! ## C8: the temporary file -/

/-- C8 counterexample: when launching the editor subprocess raises, the
function propagates the exception without removing the temporary file. -/
theorem temp_file_left_on_exception_cex :
    (prompt_for_multiline_input true false "x").2 = false := by
  decide

/-- C8 amended: the temporary file is removed exactly on the
exception-free path: a successful read (including one that returns the
empty string) removes it, while an exception from the editor subprocess
or from the read-back propagates and leaves the file behind. -/
theorem temp_file_removed_iff_no_exception (er rr : Bool) (c : String) :
    (prompt_for_multiline_input er rr c).2 = true ↔ er = false ∧ rr = false := by
  cases er <;> cases rr <;> simp [prompt_for_multiline_input]

/-! ## C9: the missing api key -/

/-- C9: with `GEMINI_API_KEY` absent from the environment,
`analyze_codebase` fails before any network call: the model is never
configured, no prompt is sent, the result is `None`, and the failure is
reported as the configuration diagnostic — for every tree, question and
would-be gateway outcome. -/
theorem missing_key_no_call (p : String) (excl : List String) (t : FSTree)
    (q : String) (gw : GatewayOutcome) :
    analyze_codebase none p excl t q gw =
      ⟨false, none, none, ["Error: GEMINI_API_KEY not found in environment."]⟩ :=
  rfl

/-! ## C1 and C2: the extraction round trip -/

/-- Every codepoint is at most the largest Unicode scalar value. -/
theorem char_toNat_le (c : Char) : c.toNat ≤ 1114111 := by
  have h := c.valid
  have he : c.toNat = c.val.toNat := rfl
  rcases h with h | ⟨hl, hr⟩ <;> omega

/-- ASCII characters are a single UTF-8 byte. -/
theorem utf8_ascii (c : Char) (h : c.toNat < 128) :
    utf8EncodeChar c = [c.toNat] := by
  simp [utf8EncodeChar, h]

theorem utf8Bytes_append (a b : List Char) :
    utf8Bytes (a ++ b) = utf8Bytes a ++ utf8Bytes b := by
  simp [utf8Bytes]

theorem hexVal_hexDigit (n : Nat) (h : n < 16) :
    hexVal ((hexDigit n).toNat) = some n := by
  interval_cases n <;> decide

theorem hexDigit_utf8 (n : Nat) (h : n < 16) :
    utf8EncodeChar (hexDigit n) = [(hexDigit n).toNat] := by
  interval_cases n <;> decide

/-- Specialization to reduced digits, usable as a rewrite rule. -/
theorem hexDigit_mod_utf8 (x : Nat) :
    utf8EncodeChar (hexDigit (x % 16)) = [(hexDigit (x % 16)).toNat] :=
  hexDigit_utf8 _ (Nat.mod_lt _ (by norm_num))

theorem hex8Val_hexDigit (d1 d2 d3 d4 d5 d6 d7 d8 : Nat)
    (h1 : d1 < 16) (h2 : d2 < 16) (h3 : d3 < 16) (h4 : d4 < 16)
    (h5 : d5 < 16) (h6 : d6 < 16) (h7 : d7 < 16) (h8 : d8 < 16) :
    hex8Val (hexDigit d1).toNat (hexDigit d2).toNat (hexDigit d3).toNat
      (hexDigit d4).toNat (hexDigit d5).toNat (hexDigit d6).toNat
      (hexDigit d7).toNat (hexDigit d8).toNat
      = some (((d1 * 16 + d2) * 256 + (d3 * 16 + d4)) * 65536
              + ((d5 * 16 + d6) * 256 + (d7 * 16 + d8))) := by
  simp [hex8Val, hex4Val, hex2Val, hexVal_hexDigit _ h1, hexVal_hexDigit _ h2,
    hexVal_hexDigit _ h3, hexVal_hexDigit _ h4, hexVal_hexDigit _ h5,
    hexVal_hexDigit _ h6, hexVal_hexDigit _ h7, hexVal_hexDigit _ h8]


/-- Unfolding step of the decoder for a plain byte. -/
theorem unescape_plain_step (b : Nat) (bs : List Nat) (hne : ¬ b = 92) :
    unescapeBytes (b :: bs) = (unescapeBytes bs).map (fun t => Char.ofNat b :: t) := by
  unfold unescapeBytes
  simp only [List.length_cons, unescapeAux]
  rw [if_neg hne]

/-- Unfolding step of the decoder for a decodable escape. -/
theorem unescape_escape_step (bs : List Nat) (cs2 : List Char) (rest : List Nat)
    (hd : decodeEscape bs = some (cs2, rest)) :
    unescapeBytes (92 :: bs) = (unescapeBytes rest).map (fun t => cs2 ++ t) := by
  unfold unescapeBytes
  simp only [List.length_cons, unescapeAux, if_true, ite_true, hd]
  rw [unescapeAux_fuel bs.length rest.length rest (decodeEscape_len _ _ _ hd) le_rfl]

/-- One escaped character decodes back to itself in front of any
continuation: every chunk the encoder emits is self-delimiting for the
decoder. -/
theorem unescape_escapeChar (c : Char) (rest : List Nat) :
    unescapeBytes (utf8Bytes (escapeChar c) ++ rest)
      = (unescapeBytes rest).map (fun t => c :: t) := by
  by_cases hc1 : c = '\\'
  · subst hc1
    rw [show utf8Bytes (escapeChar '\\') = [92, 92] from by decide]
    rw [show ([92, 92] : List Nat) ++ rest = 92 :: 92 :: rest from rfl]
    rw [unescape_escape_step _ _ _
      (show decodeEscape (92 :: rest) = some (['\\'], rest) from rfl)]
    simp
  by_cases hc2 : c = '"'
  · subst hc2
    rw [show utf8Bytes (escapeChar '"') = [92, 34] from by decide]
    rw [show ([92, 34] : List Nat) ++ rest = 92 :: 34 :: rest from rfl]
    rw [unescape_escape_step _ _ _
      (show decodeEscape (34 :: rest) = some (['"'], rest) from rfl)]
    simp
  by_cases hc3 : c = '\n'
  · subst hc3
    rw [show utf8Bytes (escapeChar '\n') = [92, 110] from by decide]
    rw [show ([92, 110] : List Nat) ++ rest = 92 :: 110 :: rest from rfl]
    rw [unescape_escape_step _ _ _
      (show decodeEscape (110 :: rest) = some (['\n'], rest) from rfl)]
    simp
  by_cases hc4 : c = '\t'
  · subst hc4
    rw [show utf8Bytes (escapeChar '\t') = [92, 116] from by decide]
    rw [show ([92, 116] : List Nat) ++ rest = 92 :: 116 :: rest from rfl]
    rw [unescape_escape_step _ _ _
      (show decodeEscape (116 :: rest) = some (['\t'], rest) from rfl)]
    simp
  by_cases hc5 : c = '\r'
  · subst hc5
    rw [show utf8Bytes (escapeChar '\r') = [92, 114] from by decide]
    rw [show ([92, 114] : List Nat) ++ rest = 92 :: 114 :: rest from rfl]
    rw [unescape_escape_step _ _ _
      (show decodeEscape (114 :: rest) = some (['\r'], rest) from rfl)]
    simp
  by_cases hc6 : 32 ≤ c.toNat ∧ c.toNat ≤ 126
  · have hesc : escapeChar c = [c] := by
      simp [escapeChar, hc1, hc2, hc3, hc4, hc5, hc6]
    have hne : ¬ (c.toNat = 92) := fun hEq => hc1 (by rw [← Char.ofNat_toNat c, hEq])
    have hb : utf8Bytes (escapeChar c) ++ rest = c.toNat :: rest := by
      rw [hesc]; simp [utf8Bytes, utf8_ascii c (by omega)]
    rw [hb, unescape_plain_step _ _ hne, Char.ofNat_toNat]
  · have hesc : escapeChar c = '\\' :: 'U' :: hex8 c.toNat := by
      simp [escapeChar, hc1, hc2, hc3, hc4, hc5, hc6]
    have hbytes : utf8Bytes (escapeChar c) ++ rest
        = 92 :: 85 :: (hexDigit (c.toNat / 268435456 % 16)).toNat ::
          (hexDigit (c.toNat / 16777216 % 16)).toNat ::
          (hexDigit (c.toNat / 1048576 % 16)).toNat ::
          (hexDigit (c.toNat / 65536 % 16)).toNat ::
          (hexDigit (c.toNat / 4096 % 16)).toNat ::
          (hexDigit (c.toNat / 256 % 16)).toNat ::
          (hexDigit (c.toNat / 16 % 16)).toNat ::
          (hexDigit (c.toNat % 16)).toNat :: rest := by
      rw [hesc]
      simp [utf8Bytes, hex8, hexDigit_mod_utf8]
      rw [show utf8EncodeChar '\\' = [92] from by decide,
          show utf8EncodeChar 'U' = [85] from by decide]
      rfl
    have hm : ∀ x : Nat, x % 16 < 16 := fun x => Nat.mod_lt _ (by norm_num)
    have hstep : ∀ (b1 b2 b3 b4 b5 b6 b7 b8 : Nat) (ds : List Nat),
        decodeEscape (85 :: b1 :: b2 :: b3 :: b4 :: b5 :: b6 :: b7 :: b8 :: ds)
          = match hex8Val b1 b2 b3 b4 b5 b6 b7 b8 with
            | some w => if w ≤ 1114111 then some ([Char.ofNat w], ds) else none
            | none => none := fun _ _ _ _ _ _ _ _ _ => rfl
    have hvle := char_toNat_le c
    have hw : ((c.toNat / 268435456 % 16 * 16 + c.toNat / 16777216 % 16) * 256
        + (c.toNat / 1048576 % 16 * 16 + c.toNat / 65536 % 16)) * 65536
        + ((c.toNat / 4096 % 16 * 16 + c.toNat / 256 % 16) * 256
        + (c.toNat / 16 % 16 * 16 + c.toNat % 16)) = c.toNat := by omega
    have hdec : decodeEscape (85 :: (hexDigit (c.toNat / 268435456 % 16)).toNat ::
          (hexDigit (c.toNat / 16777216 % 16)).toNat ::
          (hexDigit (c.toNat / 1048576 % 16)).toNat ::
          (hexDigit (c.toNat / 65536 % 16)).toNat ::
          (hexDigit (c.toNat / 4096 % 16)).toNat ::
          (hexDigit (c.toNat / 256 % 16)).toNat ::
          (hexDigit (c.toNat / 16 % 16)).toNat ::
          (hexDigit (c.toNat % 16)).toNat :: rest)
        = some ([Char.ofNat c.toNat], rest) := by
      rw [hstep, hex8Val_hexDigit (c.toNat / 268435456 % 16) (c.toNat / 16777216 % 16)
        (c.toNat / 1048576 % 16) (c.toNat / 65536 % 16) (c.toNat / 4096 % 16)
        (c.toNat / 256 % 16) (c.toNat / 16 % 16) (c.toNat % 16)
        (hm _) (hm _) (hm _) (hm _) (hm _) (hm _) (hm _) (hm _)]
      rw [hw]
      show (if c.toNat ≤ 1114111 then some ([Char.ofNat c.toNat], rest) else none)
        = some ([Char.ofNat c.toNat], rest)
      rw [if_pos (char_toNat_le c)]
    rw [hbytes, unescape_escape_step _ _ _ hdec, Char.ofNat_toNat]
    simp

/-- The decoder inverts the escape encoding on every string. -/
theorem unescape_escape (cs : List Char) :
    unescapeBytes (utf8Bytes ((cs.map escapeChar).flatten)) = some cs := by
  induction cs with
  | nil => rfl
  | cons c rest ih =>
    have hsplit : ((c :: rest).map escapeChar).flatten
        = escapeChar c ++ (rest.map escapeChar).flatten := by simp
    rw [hsplit, utf8Bytes_append, unescape_escapeChar, ih]
    rfl

/-- The decoder is the identity on backslash-free ASCII text. -/
theorem unescape_ascii (cs : List Char)
    (h : ∀ c ∈ cs, c.toNat < 128 ∧ c ≠ '\\') :
    unescapeBytes (utf8Bytes cs) = some cs := by
  induction cs with
  | nil => rfl
  | cons c rest ih =>
    obtain ⟨h1, h2⟩ := h c (List.mem_cons_self _ _)
    have hb : utf8Bytes (c :: rest) = c.toNat :: utf8Bytes rest := by
      simp [utf8Bytes, utf8_ascii c h1]
    have hne : ¬ (c.toNat = 92) := fun hEq => h2 (by rw [← Char.ofNat_toNat c, hEq])
    rw [hb, unescape_plain_step _ _ hne,
      ih (fun x hx => h x (List.mem_cons_of_mem _ hx)), Char.ofNat_toNat]
    rfl

/-- The opening of the structural wrapper matches at the head of the
wrapped text, leaving everything after the opening quote. -/
theorem matchOpen_wrap (rest : List Char) :
    matchOpen ('p' :: 'a' :: 'r' :: 't' :: 's' :: ' ' :: '\x7b' :: ' ' ::
      't' :: 'e' :: 'x' :: 't' :: ':' :: ' ' :: '"' :: rest) = some rest := rfl

/-- Character list of a wrapped payload. -/
theorem wrap_data (content : String) :
    (wrapParts content).data
      = 'p' :: 'a' :: 'r' :: 't' :: 's' :: ' ' :: '\x7b' :: ' ' ::
        't' :: 'e' :: 'x' :: 't' :: ':' :: ' ' :: '"' ::
        (content.data ++ ['"', ' ', '\x7d']) := by
  show ("parts \x7b text: \"" ++ content ++ "\" \x7d").data = _
  rw [String.data_append, String.data_append]
  rw [show ("parts \x7b text: \"" : String).data
      = ['p', 'a', 'r', 't', 's', ' ', '\x7b', ' ',
         't', 'e', 'x', 't', ':', ' ', '"'] from rfl]
  rw [show ("\" \x7d" : String).data = ['"', ' ', '\x7d'] from rfl]
  simp

/-- The search finds the wrapper at the start of a wrapped text, and the
capture is decided by the first closing delimiter after the opening
quote. -/
theorem research_wrap (content : String) (cap : List Char)
    (h : findClose (content.data ++ ['"', ' ', '\x7d']) = some cap) :
    research ((wrapParts content).data) = some cap := by
  rw [wrap_data]
  simp only [research, matchOpen_wrap, h]

/-- C1 counterexample: for the answer consisting of x followed by a
newline, the wrapped escape-encoded response extracts to x alone — the
final strip of the source removes the trailing newline — so the round
trip does not reproduce the original text exactly. -/
theorem roundtrip_trailing_newline_cex :
    extractAnswer (wrapParts (escapeStr "x\n")) = some "x" ∧
    extractAnswer (wrapParts (escapeStr "x\n")) ≠ some "x\n" := by
  constructor
  · decide
  · decide

/-- C1 amended: for a response text that is exactly the structural
wrapper around the escape-encoded answer, extraction plus unescaping
reproduces the answer exactly — including answers spanning multiple
lines — provided the answer equals its own whitespace trim (otherwise
the final strip alters it) and the escaped answer contains no early
closing delimiter, a quote followed by optional whitespace and a
closing brace (otherwise the lazy match stops there). -/
theorem extract_roundtrip (s : String)
    (hclose : findClose ((escapeStr s).data ++ ['"', ' ', '\x7d'])
      = some (escapeStr s).data)
    (htrim : pyStrip s.data = s.data) :
    extractAnswer (wrapParts (escapeStr s)) = some s := by
  have hbody : extractBody ((wrapParts (escapeStr s)).data) = (escapeStr s).data := by
    unfold extractBody
    rw [research_wrap _ _ hclose]
  unfold extractAnswer
  rw [hbody]
  rw [show (escapeStr s).data = (s.data.map escapeChar).flatten from rfl]
  rw [unescape_escape]
  rw [show (match (some s.data : Option (List Char)) with
      | some chars => some (String.mk (pyStrip chars))
      | none => none) = some (String.mk (pyStrip s.data)) from rfl]
  rw [htrim]

/-- C1 witness: the round trip at the two-line answer from the spec. -/
theorem extract_roundtrip_witness :
    findClose ((escapeStr "Hello\nWorld").data ++ ['"', ' ', '\x7d'])
      = some (escapeStr "Hello\nWorld").data ∧
    pyStrip "Hello\nWorld".data = "Hello\nWorld".data ∧
    extractAnswer (wrapParts (escapeStr "Hello\nWorld")) = some "Hello\nWorld" :=
  ⟨by decide, by decide,
   extract_roundtrip "Hello\nWorld" (by decide) (by decide)⟩

/-- C2: when the response text contains no structural wrapper, the
extractor returns it unchanged, for text on which the unconditional
passes are the identity: backslash-free ASCII text equal to its own
whitespace trim. -/
theorem extract_no_wrapper_id (raw : String)
    (hnw : research raw.data = none)
    (hplain : ∀ c ∈ raw.data, c.toNat < 128 ∧ c ≠ '\\')
    (htrim : pyStrip raw.data = raw.data) :
    extractAnswer raw = some raw := by
  have hbody : extractBody raw.data = raw.data := by
    unfold extractBody
    rw [hnw]
  unfold extractAnswer
  rw [hbody, unescape_ascii raw.data hplain]
  rw [show (match (some raw.data : Option (List Char)) with
      | some chars => some (String.mk (pyStrip chars))
      | none => none) = some (String.mk (pyStrip raw.data)) from rfl]
  rw [htrim]

/-- C2 witness: the plain response from the spec is returned verbatim. -/
theorem extract_no_wrapper_id_witness :
    research "Plain answer.".data = none ∧
    extractAnswer "Plain answer." = some "Plain answer." :=
  ⟨by decide,
   extract_no_wrapper_id "Plain answer." (by decide) (by decide) (by decide)⟩
